import Mathlib

/-!
Verification of the static endpoint-discovery engine of the
observability-module repository (src/registration/registration.go,
package parserimport).  The Go source is shallowly embedded: the
fragment of the go/ast node language that the engine inspects is a
Lean inductive type, each Go function becomes a Lean function of the
same name, and `ast.Inspect`'s preorder traversal becomes an explicit
recursive walk.
-/

/-- Kind of a go/ast BasicLit token (token.STRING, token.INT, ...).
Only STRING is examined by the engine. -/
inductive LitKind where
  | STRING
  | INT
  | FLOAT
  | IMAG
  | CHAR
deriving DecidableEq, Repr

mutual
/-- The fragment of go/ast expressions the engine inspects.
`ident` is *ast.Ident, `basicLit` is *ast.BasicLit (`value` is the
literal's source text, quotes or backquotes included, exactly as in
BasicLit.Value), `selector` is *ast.SelectorExpr (receiver expression
plus selected member name), `call` is *ast.CallExpr (Fun plus Args),
`funcLit` is *ast.FuncLit (an anonymous function literal; its body's
expressions are kept because ast.Inspect descends into them), and
`binary` is *ast.BinaryExpr (e.g. a string concatenation). -/
inductive Expr where
  | ident (name : String)
  | basicLit (kind : LitKind) (value : String)
  | selector (x : Expr) (sel : String)
  | call (fn : Expr) (args : ExprList)
  | funcLit (body : ExprList)
  | binary (op : String) (x y : Expr)

/-- A list of expressions (a Go []ast.Expr), given as its own
inductive so that traversals are mutually structurally recursive. -/
inductive ExprList where
  | nil
  | cons (head : Expr) (tail : ExprList)
end

/-- Length of an ExprList, modelling len() on a Go slice. -/
def ExprList.length : ExprList → Nat
  | .nil => 0
  | .cons _ t => t.length + 1

/-- A parsed Go source file (*ast.File) as the engine sees it: the
ImportSpec path values in document order (each is BasicLit.Value of
the import path, with the surrounding double quotes of the source
text included), and the expressions of the file body in document
order.  ast.Inspect visits both the import declarations and the body
declarations of the one file; the ImportSpec nodes contain no call
expressions and the body contains no ImportSpec nodes, so the two
components are kept side by side. -/
structure File where
  imports : List String
  decls : List Expr

/-- Endpoint represents a single API endpoint (struct Endpoint). -/
structure Endpoint where
  Method : String
  Pattern : String
  Handler : String
deriving DecidableEq, Repr

/-- The triple returned by DetectFrameworkAndEndpoints:
(string, []Endpoint, error).  `err = none` models a nil error. -/
structure AnalysisResult where
  framework : String
  endpoints : List Endpoint
  err : Option String
deriving DecidableEq, Repr

/-- var frameworkSignatures: the import-path-to-framework table. -/
def frameworkSignatures : List (String × String) :=
  [("github.com/gin-gonic/gin", "Gin"),
   ("github.com/labstack/echo/v4", "Echo"),
   ("github.com/gorilla/mux", "GorillaMux"),
   ("net/http", "net/http"),
   ("github.com/gofiber/fiber/v2", "Fiber")]

/-- The inner loop of detectFramework:
`for signature, framework := range frameworkSignatures` compares the
ImportSpec.Path.Value against the signature wrapped in double quotes.
Go map iteration order is unspecified, but the five keys are distinct
strings so at most one comparison can succeed for a given path value;
the result is therefore order-independent and `find?` over the table
is a faithful model. -/
def matchSignature (pathValue : String) : Option String :=
  (frameworkSignatures.find? fun sf => pathValue == "\"" ++ sf.1 ++ "\"").map
    fun sf => sf.2

/-- strings.Trim with the cutset consisting of the double-quote
character, on the underlying character list: removes all leading and
all trailing double-quote characters, nothing else. -/
def trimListQuotes (l : List Char) : List Char :=
  ((l.dropWhile fun c => c == '"').reverse.dropWhile fun c => c == '"').reverse

/-- strings.Trim of patternLit.Value with the double-quote cutset. -/
def trimQuotes (s : String) : String :=
  String.mk (trimListQuotes s.data)

/-- Go fmt verb %s applied to an ast.Expr nested at reflection depth at
least 1 inside another struct: fmt uses the String() method when the
dynamic type implements it (*ast.Ident does, yielding the name), and
prints any other pointer-to-struct node as its hexadecimal address.
The address is run-dependent; it is modelled by a fixed placeholder,
which no claim's statement depends on (only the *ast.Ident case is
ever reached in the concrete inputs of the theorems below). -/
def goFmtDeep : Expr → String
  | .ident n => n
  | _ => "0xc000000000"

/-- Go fmt verb %s applied to an ast.Expr at top level, as in the
fmt.Sprintf call on funcLit.X and funcLit.Sel.Name: *ast.Ident
implements String() and prints its name; a *ast.SelectorExpr does not,
so fmt prints the pointed-to struct as & followed by its X and Sel
fields in braces, the fields being rendered at depth 1 or more
(goFmtDeep; Sel is *ast.Ident and prints its name).  The remaining
node shapes also print as struct/pointer dumps; their exact text is
never relied on and is modelled by a placeholder. -/
def goFmtS : Expr → String
  | .ident n => n
  | .selector x sel => "&\x7b" ++ goFmtDeep x ++ " " ++ sel ++ "\x7d"
  | _ => "&\x7bnode\x7d"

/-- isGinHTTPMethod: the switch over exact upper-case method names. -/
def isGinHTTPMethod (methodName : String) : Bool :=
  methodName == "GET" || methodName == "POST" || methodName == "PUT" ||
  methodName == "DELETE" || methodName == "PATCH" || methodName == "OPTIONS"

/-- isEchoHTTPMethod: the switch over exact upper-case method names
(textually identical to isGinHTTPMethod in the source). -/
def isEchoHTTPMethod (methodName : String) : Bool :=
  methodName == "GET" || methodName == "POST" || methodName == "PUT" ||
  methodName == "DELETE" || methodName == "PATCH" || methodName == "OPTIONS"

/-- strings.ToLower, character by character.  Go's function maps the
full Unicode case tables; the engine only ever compares the result
against ASCII method names, and on ASCII letters this model is
exact. -/
def goToLower (s : String) : String :=
  String.mk (s.data.map Char.toLower)

/-- strings.ToUpper, character by character (ASCII-exact, as above). -/
def goToUpper (s : String) : String :=
  String.mk (s.data.map Char.toUpper)

/-- isFiberHTTPMethod: switch strings.ToLower(methodName) over the
six lower-case method names. -/
def isFiberHTTPMethod (methodName : String) : Bool :=
  let m := goToLower methodName
  m == "get" || m == "post" || m == "put" || m == "delete" ||
  m == "patch" || m == "options"

/-- The body of the ast.Inspect callback of parseGinEndpoints at one
CallExpr node, given the call's Fun and Args: the Fun must be a
SelectorExpr whose member name passes isGinHTTPMethod and there must
be at least two arguments; the pattern string is the trimmed value of
a STRING BasicLit first argument (otherwise it stays empty), the
handler string is the name of an Ident second argument or
the fmt.Sprintf dotted join of X and Sel.Name of a SelectorExpr
(otherwise it stays empty); an Endpoint is appended exactly when both
strings are non-empty, with the member name as its Method. -/
def ginCandidate : Expr → ExprList → Option Endpoint
  | Expr.selector _x sel, args =>
    if isGinHTTPMethod sel then
      match args with
      | ExprList.cons a0 (ExprList.cons a1 _) =>
        let pattern : String :=
          match a0 with
          | Expr.basicLit LitKind.STRING v => trimQuotes v
          | _ => ""
        let handler : String :=
          match a1 with
          | Expr.ident name => name
          | Expr.selector hx hsel => goFmtS hx ++ "." ++ hsel
          | _ => ""
        if pattern != "" && handler != "" then
          some { Method := sel, Pattern := pattern, Handler := handler }
        else none
      | _ => none
    else none
  | _, _ => none

/-- The body of the ast.Inspect callback of parseEchoEndpoints at one
CallExpr node; the source is textually identical to the Gin callback
except that it consults isEchoHTTPMethod. -/
def echoCandidate : Expr → ExprList → Option Endpoint
  | Expr.selector _x sel, args =>
    if isEchoHTTPMethod sel then
      match args with
      | ExprList.cons a0 (ExprList.cons a1 _) =>
        let pattern : String :=
          match a0 with
          | Expr.basicLit LitKind.STRING v => trimQuotes v
          | _ => ""
        let handler : String :=
          match a1 with
          | Expr.ident name => name
          | Expr.selector hx hsel => goFmtS hx ++ "." ++ hsel
          | _ => ""
        if pattern != "" && handler != "" then
          some { Method := sel, Pattern := pattern, Handler := handler }
        else none
      | _ => none
    else none
  | _, _ => none

/-- The body of the ast.Inspect callback of parseGorillaMuxEndpoints
at one CallExpr node: the member name must be exactly HandleFunc
and the Method recorded is the fixed sentinel CUSTOM. -/
def gorillaMuxCandidate : Expr → ExprList → Option Endpoint
  | Expr.selector _x sel, args =>
    if sel == "HandleFunc" then
      match args with
      | ExprList.cons a0 (ExprList.cons a1 _) =>
        let pattern : String :=
          match a0 with
          | Expr.basicLit LitKind.STRING v => trimQuotes v
          | _ => ""
        let handler : String :=
          match a1 with
          | Expr.ident name => name
          | Expr.selector hx hsel => goFmtS hx ++ "." ++ hsel
          | _ => ""
        if pattern != "" && handler != "" then
          some { Method := "CUSTOM", Pattern := pattern, Handler := handler }
        else none
      | _ => none
    else none
  | _, _ => none

/-- The body of the ast.Inspect callback of parseNetHttpEndpoints at
one CallExpr node: the member name must be HandleFunc or Handle;
the Method starts as ALL and becomes CUSTOM for Handle. -/
def netHttpCandidate : Expr → ExprList → Option Endpoint
  | Expr.selector _x sel, args =>
    if sel == "HandleFunc" || sel == "Handle" then
      match args with
      | ExprList.cons a0 (ExprList.cons a1 _) =>
        let pattern : String :=
          match a0 with
          | Expr.basicLit LitKind.STRING v => trimQuotes v
          | _ => ""
        let handler : String :=
          match a1 with
          | Expr.ident name => name
          | Expr.selector hx hsel => goFmtS hx ++ "." ++ hsel
          | _ => ""
        if pattern != "" && handler != "" then
          let method : String := if sel == "Handle" then "CUSTOM" else "ALL"
          some { Method := method, Pattern := pattern, Handler := handler }
        else none
      | _ => none
    else none
  | _, _ => none

/-- The body of the ast.Inspect callback of parseFiberEndpoints at
one CallExpr node: the member name must pass isFiberHTTPMethod
(case-insensitive) and the Method recorded is
strings.ToUpper(selExpr.Sel.Name). -/
def fiberCandidate : Expr → ExprList → Option Endpoint
  | Expr.selector _x sel, args =>
    if isFiberHTTPMethod sel then
      match args with
      | ExprList.cons a0 (ExprList.cons a1 _) =>
        let pattern : String :=
          match a0 with
          | Expr.basicLit LitKind.STRING v => trimQuotes v
          | _ => ""
        let handler : String :=
          match a1 with
          | Expr.ident name => name
          | Expr.selector hx hsel => goFmtS hx ++ "." ++ hsel
          | _ => ""
        if pattern != "" && handler != "" then
          some { Method := goToUpper sel, Pattern := pattern, Handler := handler }
        else none
      | _ => none
    else none
  | _, _ => none

mutual
/-- ast.Inspect restricted to one expression subtree, collecting the
endpoints appended by an adapter callback `cand`: the traversal is
preorder (a node is examined before its children, the Fun of a call
before its Args), visits every node, and the callback appends at most
one Endpoint per CallExpr node.  Every adapter callback in the source
returns true unconditionally, so the walk never prunes. -/
def inspectExpr (cand : Expr → ExprList → Option Endpoint) : Expr → List Endpoint
  | .ident _ => []
  | .basicLit _ _ => []
  | .selector x _ => inspectExpr cand x
  | .binary _ x y => inspectExpr cand x ++ inspectExpr cand y
  | .funcLit body => inspectArgs cand body
  | .call fn args =>
    (match cand fn args with
     | some e => [e]
     | none => []) ++ (inspectExpr cand fn ++ inspectArgs cand args)

/-- ast.Inspect over a list of sibling expressions, left to right. -/
def inspectArgs (cand : Expr → ExprList → Option Endpoint) : ExprList → List Endpoint
  | .nil => []
  | .cons e es => inspectExpr cand e ++ inspectArgs cand es
end

/-- ast.Inspect over the declarations of a file, in document order. -/
def inspectDecls (cand : Expr → ExprList → Option Endpoint) : List Expr → List Endpoint
  | [] => []
  | e :: es => inspectExpr cand e ++ inspectDecls cand es

/-- parseGinEndpoints: ast.Inspect over the file with the Gin
callback. -/
def parseGinEndpoints (f : File) : List Endpoint :=
  inspectDecls ginCandidate f.decls

/-- parseEchoEndpoints: ast.Inspect over the file with the Echo
callback. -/
def parseEchoEndpoints (f : File) : List Endpoint :=
  inspectDecls echoCandidate f.decls

/-- parseGorillaMuxEndpoints: ast.Inspect over the file with the
Gorilla Mux callback. -/
def parseGorillaMuxEndpoints (f : File) : List Endpoint :=
  inspectDecls gorillaMuxCandidate f.decls

/-- parseNetHttpEndpoints: ast.Inspect over the file with the
net/http callback. -/
def parseNetHttpEndpoints (f : File) : List Endpoint :=
  inspectDecls netHttpCandidate f.decls

/-- parseFiberEndpoints: ast.Inspect over the file with the Fiber
callback. -/
def parseFiberEndpoints (f : File) : List Endpoint :=
  inspectDecls fiberCandidate f.decls

/-- The accumulator loop of detectFramework over the ImportSpec path
values in document order.  The Go callback, on a concrete (non
net/http) match, assigns detectedFramework and returns false; by the
contract of ast.Inspect (if f returns true, Inspect invokes f
recursively for each of the non-nil children of the node), returning
false only prevents descent into that ImportSpec's own children — it
does not abort the walk, so later ImportSpecs are still visited and a
later concrete match overwrites detectedFramework.  A net/http match
sets isNetHttpDetected and the callback returns true. -/
def detectFrameworkLoop : List String → String → Bool → String × Bool
  | [], detected, isNet => (detected, isNet)
  | p :: ps, detected, isNet =>
    match matchSignature p with
    | some fw =>
      if fw == "net/http" then detectFrameworkLoop ps detected true
      else detectFrameworkLoop ps fw isNet
    | none => detectFrameworkLoop ps detected isNet

/-- detectFramework: returns (detectedFramework, isNetHttpDetected),
both starting from the zero values, the empty string and false. -/
def detectFramework (f : File) : String × Bool :=
  detectFrameworkLoop f.imports "" false

/-- parseForEndpoints: the switch dispatching on the detected
framework name; an unknown name leaves endpoints nil. -/
def parseForEndpoints (f : File) (framework : String) : List Endpoint :=
  if framework == "Gin" then parseGinEndpoints f
  else if framework == "Echo" then parseEchoEndpoints f
  else if framework == "GorillaMux" then parseGorillaMuxEndpoints f
  else if framework == "net/http" then parseNetHttpEndpoints f
  else if framework == "Fiber" then parseFiberEndpoints f
  else []

/-- DetectFrameworkAndEndpoints: the Go function first runs
parser.ParseFile and returns the empty framework, nil endpoints and
the error on a parse error; the
parse outcome is modelled as the input, `none` standing for a syntax
error (the parser's error value is summarised by a fixed message).
On a parsed file it runs detectFramework; if no concrete framework
was found but net/http was, the framework becomes net/http; if
still empty it returns the empty framework, nil endpoints and the
UnsupportedFramework error; otherwise it returns the
framework, the endpoints of parseForEndpoints, and a nil error. -/
def DetectFrameworkAndEndpoints (parsed : Option File) : AnalysisResult :=
  match parsed with
  | none => { framework := "", endpoints := [], err := some "syntax error" }
  | some f =>
    let d := detectFramework f
    let detectedFramework := if d.1 == "" && d.2 then "net/http" else d.1
    if detectedFramework == "" then
      { framework := "", endpoints := [],
        err := some "no known framework detected" }
    else
      { framework := detectedFramework,
        endpoints := parseForEndpoints f detectedFramework, err := none }

/-- Builds an ExprList from a Lean list, for concrete test files. -/
def ExprList.ofList : List Expr → ExprList
  | [] => ExprList.nil
  | e :: es => ExprList.cons e (ExprList.ofList es)

/-- A path value that the registry resolves to the fallback
framework net/http. -/
def isBaseSig (p : String) : Bool :=
  matchSignature p == some "net/http"

/-- A path value that the registry resolves to a concrete (non
fallback) framework. -/
def isConcreteSig (p : String) : Bool :=
  match matchSignature p with
  | some fw => fw != "net/http"
  | none => false

theorem matchSignature_ne_empty {p c : String}
    (h : matchSignature p = some c) : c ≠ "" := by
  unfold matchSignature at h
  rcases Option.map_eq_some'.mp h with ⟨sf, hfind, hc⟩
  have hmem := List.mem_of_find?_eq_some hfind
  subst hc
  simp only [frameworkSignatures, List.mem_cons, List.not_mem_nil, or_false] at hmem
  rcases hmem with rfl | rfl | rfl | rfl | rfl <;> decide

theorem detectFrameworkLoop_all_unmatched :
    ∀ (imps : List String) (d : String) (b : Bool),
    (∀ p ∈ imps, matchSignature p = none) →
    detectFrameworkLoop imps d b = (d, b) := by
  intro imps
  induction imps with
  | nil => intro d b _; rfl
  | cons p ps ih =>
    intro d b hall
    have hp := hall p (List.mem_cons_self p ps)
    simp only [detectFrameworkLoop, hp]
    exact ih d b fun q hq => hall q (List.mem_cons_of_mem p hq)

theorem detectFrameworkLoop_eq_empty :
    ∀ (imps : List String) (d : String) (b : Bool),
    detectFrameworkLoop imps d b = ("", false) →
    d = "" ∧ b = false ∧ ∀ p ∈ imps, matchSignature p = none := by
  intro imps
  induction imps with
  | nil =>
    intro d b h
    exact ⟨congrArg Prod.fst h, congrArg Prod.snd h, by simp⟩
  | cons p ps ih =>
    intro d b h
    cases hm : matchSignature p with
    | none =>
      simp only [detectFrameworkLoop, hm] at h
      obtain ⟨hd, hb, hrest⟩ := ih d b h
      refine ⟨hd, hb, ?_⟩
      intro q hq
      rcases List.mem_cons.mp hq with rfl | hq
      · exact hm
      · exact hrest q hq
    | some fw =>
      simp only [detectFrameworkLoop, hm] at h
      by_cases hfw : fw = "net/http"
      · rw [if_pos (by simp [hfw])] at h
        obtain ⟨_, hb, _⟩ := ih d true h
        exact absurd hb (by simp)
      · rw [if_neg (by simp [hfw])] at h
        obtain ⟨hd, _, _⟩ := ih fw b h
        exact absurd hd (matchSignature_ne_empty hm)

theorem detectFrameworkLoop_no_concrete :
    ∀ (imps : List String) (d : String) (b : Bool),
    (∀ p ∈ imps, isConcreteSig p = false) →
    detectFrameworkLoop imps d b = (d, b || imps.any isBaseSig) := by
  intro imps
  induction imps with
  | nil => intro d b _; simp [detectFrameworkLoop]
  | cons p ps ih =>
    intro d b hall
    have hp := hall p (List.mem_cons_self p ps)
    have hrest : ∀ q ∈ ps, isConcreteSig q = false :=
      fun q hq => hall q (List.mem_cons_of_mem p hq)
    cases hm : matchSignature p with
    | none =>
      have hbase : isBaseSig p = false := by simp [isBaseSig, hm]
      simp [detectFrameworkLoop, hm, ih _ _ hrest, hbase]
    | some fw =>
      have hfw : fw = "net/http" := by
        by_contra hne
        simp [isConcreteSig, hm, hne] at hp
      have hbase : isBaseSig p = true := by simp [isBaseSig, hm, hfw]
      subst hfw
      simp [detectFrameworkLoop, hm, ih _ _ hrest, hbase]

theorem detectFrameworkLoop_unique_concrete :
    ∀ (imps : List String) (d : String) (b : Bool) (c : String),
    c ≠ "net/http" →
    (d = c ∨ ∃ p ∈ imps, matchSignature p = some c) →
    (∀ p ∈ imps, matchSignature p = none ∨ matchSignature p = some "net/http" ∨
      matchSignature p = some c) →
    (detectFrameworkLoop imps d b).1 = c := by
  intro imps
  induction imps with
  | nil =>
    intro d b c _ hex _
    rcases hex with rfl | ⟨p, hp, _⟩
    · rfl
    · exact absurd hp (by simp)
  | cons p ps ih =>
    intro d b c hc hex hall
    have hrest : ∀ q ∈ ps, matchSignature q = none ∨
        matchSignature q = some "net/http" ∨ matchSignature q = some c :=
      fun q hq => hall q (List.mem_cons_of_mem p hq)
    cases hm : matchSignature p with
    | none =>
      simp only [detectFrameworkLoop, hm]
      refine ih d b c hc ?_ hrest
      rcases hex with rfl | ⟨q, hq, hqm⟩
      · exact Or.inl rfl
      · rcases List.mem_cons.mp hq with rfl | hq
        · exact absurd hqm (by simp [hm])
        · exact Or.inr ⟨q, hq, hqm⟩
    | some fw =>
      rcases hall p (List.mem_cons_self p ps) with h0 | h1 | h2
      · exact absurd h0 (by simp [hm])
      · have hfw : fw = "net/http" := by
          rw [hm] at h1
          exact Option.some.inj h1
        subst hfw
        simp only [detectFrameworkLoop, hm]
        rw [if_pos (by simp : (("net/http" == "net/http") = true))]
        refine ih d true c hc ?_ hrest
        rcases hex with rfl | ⟨q, hq, hqm⟩
        · exact Or.inl rfl
        · rcases List.mem_cons.mp hq with rfl | hq
          · rw [hm] at hqm
            exact absurd (Option.some.inj hqm).symm hc
          · exact Or.inr ⟨q, hq, hqm⟩
      · have hfw : fw = c := by
          rw [hm] at h2
          exact Option.some.inj h2
        simp only [detectFrameworkLoop, hm]
        rw [if_neg (by simp [hfw, hc] : ¬ ((fw == "net/http") = true))]
        rw [hfw]
        exact ih c b c hc (Or.inl rfl) hrest

/-- Characterization of DetectFrameworkAndEndpoints on a parsed file:
either some import is recognized and the result is a non-empty
framework with its extracted endpoints and a nil error, or no import
is recognized and the result is the UnsupportedFramework error with
empty framework and endpoints. -/
theorem DetectFrameworkAndEndpoints_some_cases (f : File) :
    (∃ fw, fw ≠ "" ∧
      DetectFrameworkAndEndpoints (some f) =
        { framework := fw, endpoints := parseForEndpoints f fw, err := none } ∧
      ¬ (∀ p ∈ f.imports, matchSignature p = none))
    ∨ ((∀ p ∈ f.imports, matchSignature p = none) ∧
      DetectFrameworkAndEndpoints (some f) =
        { framework := "", endpoints := [],
          err := some "no known framework detected" }) := by
  by_cases hall : ∀ p ∈ f.imports, matchSignature p = none
  · right
    refine ⟨hall, ?_⟩
    have hloop := detectFrameworkLoop_all_unmatched f.imports "" false hall
    simp [DetectFrameworkAndEndpoints, detectFramework, hloop]
  · left
    rcases hL : detectFramework f with ⟨d1, d2⟩
    have hne : (d1, d2) ≠ (("" : String), false) := by
      intro h
      rw [h] at hL
      exact hall (detectFrameworkLoop_eq_empty f.imports "" false hL).2.2
    by_cases hd1 : d1 = ""
    · have hd2 : d2 = true := by
        by_contra h
        have h2 : d2 = false := by simpa using h
        exact hne (by rw [hd1, h2])
      refine ⟨"net/http", by decide, ?_, hall⟩
      simp [DetectFrameworkAndEndpoints, hL, hd1, hd2]
    · refine ⟨d1, hd1, ?_, hall⟩
      simp [DetectFrameworkAndEndpoints, hL, hd1]

/-- C2: a file whose imports contain the base-HTTP signature and no
concrete framework signature detects the fallback net/http; a file
whose imports contain the base-HTTP signature together with a
concrete framework signature, in either order (the position in the
list of imports is unconstrained), detects the concrete framework; a
file with no recognized import of any kind fails detection. -/
theorem C2_fallback_semantics (f : File) :
    ((∀ p ∈ f.imports, isConcreteSig p = false) →
      f.imports.any isBaseSig = true →
      (DetectFrameworkAndEndpoints (some f)).framework = "net/http" ∧
      (DetectFrameworkAndEndpoints (some f)).err = none)
    ∧ (∀ c : String, c ≠ "net/http" →
      (∃ p ∈ f.imports, matchSignature p = some c) →
      (∀ p ∈ f.imports, matchSignature p = none ∨
        matchSignature p = some "net/http" ∨ matchSignature p = some c) →
      (DetectFrameworkAndEndpoints (some f)).framework = c ∧
      (DetectFrameworkAndEndpoints (some f)).err = none)
    ∧ ((∀ p ∈ f.imports, matchSignature p = none) →
      (DetectFrameworkAndEndpoints (some f)).framework = "" ∧
      (DetectFrameworkAndEndpoints (some f)).err.isSome = true) := by
  refine ⟨?_, ?_, ?_⟩
  · intro hconc hbase
    have hloop := detectFrameworkLoop_no_concrete f.imports "" false hconc
    rw [hbase] at hloop
    simp only [Bool.false_or] at hloop
    simp [DetectFrameworkAndEndpoints, detectFramework, hloop]
  · intro c hc hex hall
    have h1 := detectFrameworkLoop_unique_concrete f.imports "" false c hc
      (Or.inr hex) hall
    have hcne : c ≠ "" := by
      obtain ⟨p, _, hp⟩ := hex
      exact matchSignature_ne_empty hp
    rcases hL : detectFramework f with ⟨d1, d2⟩
    have hd1 : d1 = c := by
      have : (detectFramework f).1 = c := h1
      rw [hL] at this
      exact this
    subst hd1
    simp [DetectFrameworkAndEndpoints, hL, hcne]
  · intro hall
    have hloop := detectFrameworkLoop_all_unmatched f.imports "" false hall
    simp [DetectFrameworkAndEndpoints, detectFramework, hloop]

/-- Witness for C2 at concrete files: only net/http imported; net/http
followed by the Gin signature; a single unrecognized import. -/
theorem C2_fallback_semantics_witness :
    ((DetectFrameworkAndEndpoints (some ⟨["\"net/http\""], []⟩)).framework =
        "net/http" ∧
      (DetectFrameworkAndEndpoints (some ⟨["\"net/http\""], []⟩)).err = none)
    ∧ ((DetectFrameworkAndEndpoints
          (some ⟨["\"net/http\"", "\"github.com/gin-gonic/gin\""], []⟩)).framework =
        "Gin" ∧
      (DetectFrameworkAndEndpoints
          (some ⟨["\"net/http\"", "\"github.com/gin-gonic/gin\""], []⟩)).err = none)
    ∧ ((DetectFrameworkAndEndpoints (some ⟨["\"gin\""], []⟩)).framework = "" ∧
      (DetectFrameworkAndEndpoints (some ⟨["\"gin\""], []⟩)).err.isSome = true) :=
  ⟨(C2_fallback_semantics ⟨["\"net/http\""], []⟩).1 (by decide) (by decide),
   (C2_fallback_semantics
      ⟨["\"net/http\"", "\"github.com/gin-gonic/gin\""], []⟩).2.1 "Gin"
      (by decide) (by decide) (by decide),
   (C2_fallback_semantics ⟨["\"gin\""], []⟩).2.2 (by decide)⟩

/-- C5: DetectFrameworkAndEndpoints errors exactly when the input
does not parse or no import is recognized; an error comes with empty
framework and endpoints (no partial result); a successful analysis
returns a non-empty framework and exactly the endpoints the selected
adapter extracts (the empty list when no registration call matches,
still with a nil error). -/
theorem C5_error_contract (parsed : Option File) :
    ((DetectFrameworkAndEndpoints parsed).err.isSome = true ↔
      (parsed = none ∨ ∃ f, parsed = some f ∧
        ∀ p ∈ f.imports, matchSignature p = none))
    ∧ ((DetectFrameworkAndEndpoints parsed).err.isSome = true →
      (DetectFrameworkAndEndpoints parsed).framework = "" ∧
      (DetectFrameworkAndEndpoints parsed).endpoints = [])
    ∧ (∀ f, parsed = some f → (DetectFrameworkAndEndpoints parsed).err = none →
      (DetectFrameworkAndEndpoints parsed).framework ≠ "" ∧
      (DetectFrameworkAndEndpoints parsed).endpoints =
        parseForEndpoints f (DetectFrameworkAndEndpoints parsed).framework) := by
  cases parsed with
  | none =>
    refine ⟨by simp [DetectFrameworkAndEndpoints], by
      intro _
      exact ⟨rfl, rfl⟩, by
      intro f hf _
      exact Option.noConfusion hf⟩
  | some f =>
    rcases DetectFrameworkAndEndpoints_some_cases f with
      ⟨fw, hfw, heq, hnall⟩ | ⟨hall, heq⟩
    · have herr : (DetectFrameworkAndEndpoints (some f)).err = none := by rw [heq]
      have hfr : (DetectFrameworkAndEndpoints (some f)).framework = fw := by rw [heq]
      have hep : (DetectFrameworkAndEndpoints (some f)).endpoints =
          parseForEndpoints f fw := by rw [heq]
      refine ⟨?_, ?_, ?_⟩
      · rw [herr]
        constructor
        · intro h
          exact absurd h (by simp)
        · intro h
          exfalso
          rcases h with h | ⟨f', hf', hall'⟩
          · exact Option.noConfusion h
          · have hff : f = f' := Option.some.inj hf'
            subst hff
            exact hnall hall'
      · intro h
        rw [herr] at h
        exact absurd h (by simp)
      · intro f' hf' _
        have hff : f = f' := Option.some.inj hf'
        subst hff
        refine ⟨by rw [hfr]; exact hfw, by rw [hep, hfr]⟩
    · have herr : (DetectFrameworkAndEndpoints (some f)).err =
          some "no known framework detected" := by rw [heq]
      refine ⟨?_, ?_, ?_⟩
      · rw [herr]
        simp only [Option.isSome_some, true_iff]
        exact Or.inr ⟨f, rfl, hall⟩
      · intro _
        exact ⟨by rw [heq], by rw [heq]⟩
      · intro f' hf' hnone
        have hff : f = f' := Option.some.inj hf'
        subst hff
        rw [herr] at hnone
        exact Option.noConfusion hnone

/-- Witness for C5: the syntax-error input, and a file importing only
net/http with no registration calls (empty but valid result). -/
theorem C5_error_contract_witness :
    ((DetectFrameworkAndEndpoints none).framework = "" ∧
      (DetectFrameworkAndEndpoints none).endpoints = [])
    ∧ ((DetectFrameworkAndEndpoints (some ⟨["\"net/http\""], []⟩)).framework ≠ "" ∧
      (DetectFrameworkAndEndpoints (some ⟨["\"net/http\""], []⟩)).endpoints =
        parseForEndpoints ⟨["\"net/http\""], []⟩
          (DetectFrameworkAndEndpoints (some ⟨["\"net/http\""], []⟩)).framework) :=
  ⟨(C5_error_contract none).2.1 (by decide),
   (C5_error_contract (some ⟨["\"net/http\""], []⟩)).2.2 ⟨["\"net/http\""], []⟩
     rfl (by decide)⟩

theorem str_eq_empty_of_length_zero (s : String) (h : s.length = 0) : s = "" := by
  cases s with
  | mk data =>
    cases data with
    | nil => rfl
    | cons c cs => simp [String.length] at h

theorem str_append_ne_empty_left (a b : String) (h : a ≠ "") : a ++ b ≠ "" := by
  intro hab
  apply h
  have hl := congrArg String.length hab
  rw [String.length_append] at hl
  have h0 : ("" : String).length = 0 := rfl
  rw [h0] at hl
  exact str_eq_empty_of_length_zero a (by omega)

theorem str_append_ne_empty_right (a b : String) (h : b ≠ "") : a ++ b ≠ "" := by
  intro hab
  apply h
  have hl := congrArg String.length hab
  rw [String.length_append] at hl
  have h0 : ("" : String).length = 0 := rfl
  rw [h0] at hl
  exact str_eq_empty_of_length_zero b (by omega)

theorem dropWhile_head?_not {α : Type} {p : α → Bool} :
    ∀ (l : List α) (c : α), (l.dropWhile p).head? = some c → p c = false := by
  intro l
  induction l with
  | nil => intro c h; exact absurd h (by simp)
  | cons a t ih =>
    intro c h
    rw [List.dropWhile_cons] at h
    by_cases hpa : p a = true
    · rw [if_pos hpa] at h
      exact ih c h
    · rw [if_neg hpa] at h
      have hac : a = c := by simpa using h
      rw [← hac]
      simpa using hpa

theorem trimListQuotes_front_split (l : List Char) :
    ∃ b : Nat, l.dropWhile (fun c => c == '"') =
      trimListQuotes l ++ List.replicate b '"' := by
  have hmem : ∀ c ∈ (l.dropWhile (fun c => c == '"')).reverse.takeWhile
      (fun c => c == '"'), c = '"' := by
    intro c hc
    have h := List.mem_takeWhile_imp hc
    exact eq_of_beq h
  obtain ⟨b, hb⟩ : ∃ b,
      (l.dropWhile (fun c => c == '"')).reverse.takeWhile (fun c => c == '"') =
        List.replicate b '"' :=
    ⟨_, List.eq_replicate_of_mem hmem⟩
  refine ⟨b, ?_⟩
  have hrev := List.takeWhile_append_dropWhile (p := fun c => c == '"')
    (l := (l.dropWhile (fun c => c == '"')).reverse)
  have h := congrArg List.reverse hrev
  rw [List.reverse_append, List.reverse_reverse] at h
  rw [← h, hb, List.reverse_replicate]
  rfl

theorem trimListQuotes_decomp (l : List Char) :
    ∃ a b : Nat,
      l = List.replicate a '"' ++ trimListQuotes l ++ List.replicate b '"' := by
  have hmem : ∀ c ∈ l.takeWhile (fun c => c == '"'), c = '"' := by
    intro c hc
    have h := List.mem_takeWhile_imp hc
    exact eq_of_beq h
  obtain ⟨a, ha⟩ : ∃ a, l.takeWhile (fun c => c == '"') = List.replicate a '"' :=
    ⟨_, List.eq_replicate_of_mem hmem⟩
  obtain ⟨b, hb⟩ := trimListQuotes_front_split l
  refine ⟨a, b, ?_⟩
  conv_lhs => rw [← List.takeWhile_append_dropWhile (p := fun c => c == '"') (l := l)]
  rw [ha, hb, List.append_assoc]

theorem trimListQuotes_head_ne {l : List Char} {c : Char}
    (h : (trimListQuotes l).head? = some c) : c ≠ '"' := by
  obtain ⟨b, hb⟩ := trimListQuotes_front_split l
  cases ht : trimListQuotes l with
  | nil => rw [ht] at h; exact absurd h (by simp)
  | cons x ts =>
    rw [ht] at h
    have hxc : x = c := by simpa using h
    rw [ht] at hb
    have hhead : (l.dropWhile (fun c => c == '"')).head? = some x := by
      rw [hb]; rfl
    have := dropWhile_head?_not _ x hhead
    rw [← hxc]
    simpa using this

theorem trimListQuotes_getLast_ne {l : List Char} {c : Char}
    (h : (trimListQuotes l).getLast? = some c) : c ≠ '"' := by
  have h1 : (trimListQuotes l).reverse.head? = some c := by
    rw [List.head?_reverse]
    exact h
  have h2 : (trimListQuotes l).reverse =
      (l.dropWhile (fun c => c == '"')).reverse.dropWhile (fun c => c == '"') := by
    simp [trimListQuotes]
  rw [h2] at h1
  have := dropWhile_head?_not _ c h1
  simpa using this

/-- The literal-text-value test on a pattern argument: a BasicLit
of kind STRING (interpreted or raw). -/
def isStringLit : Expr → Bool
  | Expr.basicLit LitKind.STRING _ => true
  | _ => false

theorem ginCandidate_pattern_eq {x : Expr} {sel v : String} {a1 : Expr}
    {rest : ExprList} {e : Endpoint}
    (h : ginCandidate (Expr.selector x sel)
      (ExprList.cons (Expr.basicLit LitKind.STRING v) (ExprList.cons a1 rest)) =
      some e) :
    e.Pattern = trimQuotes v := by
  by_cases hm : isGinHTTPMethod sel = true
  · simp only [ginCandidate, if_pos hm] at h
    split at h
    · rw [← Option.some.inj h]
    · exact absurd h (by simp)
  · simp only [ginCandidate, if_neg hm] at h
    exact absurd h (by simp)

theorem echoCandidate_pattern_eq {x : Expr} {sel v : String} {a1 : Expr}
    {rest : ExprList} {e : Endpoint}
    (h : echoCandidate (Expr.selector x sel)
      (ExprList.cons (Expr.basicLit LitKind.STRING v) (ExprList.cons a1 rest)) =
      some e) :
    e.Pattern = trimQuotes v := by
  by_cases hm : isEchoHTTPMethod sel = true
  · simp only [echoCandidate, if_pos hm] at h
    split at h
    · rw [← Option.some.inj h]
    · exact absurd h (by simp)
  · simp only [echoCandidate, if_neg hm] at h
    exact absurd h (by simp)

theorem gorillaMuxCandidate_pattern_eq {x : Expr} {sel v : String} {a1 : Expr}
    {rest : ExprList} {e : Endpoint}
    (h : gorillaMuxCandidate (Expr.selector x sel)
      (ExprList.cons (Expr.basicLit LitKind.STRING v) (ExprList.cons a1 rest)) =
      some e) :
    e.Pattern = trimQuotes v := by
  by_cases hm : (sel == "HandleFunc") = true
  · simp only [gorillaMuxCandidate, if_pos hm] at h
    split at h
    · rw [← Option.some.inj h]
    · exact absurd h (by simp)
  · simp only [gorillaMuxCandidate, if_neg hm] at h
    exact absurd h (by simp)

theorem netHttpCandidate_pattern_eq {x : Expr} {sel v : String} {a1 : Expr}
    {rest : ExprList} {e : Endpoint}
    (h : netHttpCandidate (Expr.selector x sel)
      (ExprList.cons (Expr.basicLit LitKind.STRING v) (ExprList.cons a1 rest)) =
      some e) :
    e.Pattern = trimQuotes v := by
  by_cases hm : (sel == "HandleFunc" || sel == "Handle") = true
  · simp only [netHttpCandidate, if_pos hm] at h
    split at h
    · rw [← Option.some.inj h]
    · exact absurd h (by simp)
  · simp only [netHttpCandidate, if_neg hm] at h
    exact absurd h (by simp)

theorem fiberCandidate_pattern_eq {x : Expr} {sel v : String} {a1 : Expr}
    {rest : ExprList} {e : Endpoint}
    (h : fiberCandidate (Expr.selector x sel)
      (ExprList.cons (Expr.basicLit LitKind.STRING v) (ExprList.cons a1 rest)) =
      some e) :
    e.Pattern = trimQuotes v := by
  by_cases hm : isFiberHTTPMethod sel = true
  · simp only [fiberCandidate, if_pos hm] at h
    split at h
    · rw [← Option.some.inj h]
    · exact absurd h (by simp)
  · simp only [fiberCandidate, if_neg hm] at h
    exact absurd h (by simp)

theorem ginCandidate_skip_nonlit {x : Expr} {sel : String} {a0 a1 : Expr}
    {rest : ExprList} (hns : isStringLit a0 = false) :
    ginCandidate (Expr.selector x sel)
      (ExprList.cons a0 (ExprList.cons a1 rest)) = none := by
  by_cases hm : isGinHTTPMethod sel = true
  · simp only [ginCandidate, if_pos hm]
    cases a0 with
    | basicLit k v => cases k <;> simp_all [isStringLit]
    | ident n => simp
    | selector y s => simp
    | call fn args => simp
    | funcLit body => simp
    | binary op y z => simp
  · simp only [ginCandidate, if_neg hm]

/-- A file importing the Gin signature first and the Echo signature
second, with no body. -/
def fileGinThenEcho : File :=
  ⟨["\"github.com/gin-gonic/gin\"", "\"github.com/labstack/echo/v4\""], []⟩

/-- A file whose one import declaration has the bare path value gin
(not the full module path), calling r.POST with the /login literal
and the handleLogin identifier. -/
def fileImportGinLiteral : File :=
  ⟨["\"gin\""],
   [Expr.call (Expr.selector (Expr.ident "r") "POST")
     (ExprList.ofList
       [Expr.basicLit LitKind.STRING "\"/login\"", Expr.ident "handleLogin"])]⟩

/-- A file importing the Gin signature path and calling r.POST with
the /login literal and the handleLogin identifier. -/
def fileGinLogin : File :=
  ⟨["\"github.com/gin-gonic/gin\""],
   [Expr.call (Expr.selector (Expr.ident "r") "POST")
     (ExprList.ofList
       [Expr.basicLit LitKind.STRING "\"/login\"", Expr.ident "handleLogin"])]⟩

/-- A file importing only net/http, calling mux.Handle on /static/
with fileHandler and then mux.HandleFunc on /health with
healthCheck. -/
def fileNetHttpMux : File :=
  ⟨["\"net/http\""],
   [Expr.call (Expr.selector (Expr.ident "mux") "Handle")
     (ExprList.ofList
       [Expr.basicLit LitKind.STRING "\"/static/\"", Expr.ident "fileHandler"]),
    Expr.call (Expr.selector (Expr.ident "mux") "HandleFunc")
     (ExprList.ofList
       [Expr.basicLit LitKind.STRING "\"/health\"", Expr.ident "healthCheck"])]⟩

/-- A Gin file whose handler argument is the three-part chain a.b.h. -/
def fileGinChainHandler : File :=
  ⟨["\"github.com/gin-gonic/gin\""],
   [Expr.call (Expr.selector (Expr.ident "r") "GET")
     (ExprList.ofList
       [Expr.basicLit LitKind.STRING "\"/x\"",
        Expr.selector (Expr.selector (Expr.ident "a") "b") "h"])]⟩

/-- A Gin file registering the empty string literal as its pattern. -/
def fileGinEmptyPattern : File :=
  ⟨["\"github.com/gin-gonic/gin\""],
   [Expr.call (Expr.selector (Expr.ident "r") "GET")
     (ExprList.ofList [Expr.basicLit LitKind.STRING "\"\"", Expr.ident "h"])]⟩

/-- app.Get on /x with h followed by app.get on /x with h. -/
def fileFiberCasePair : File :=
  ⟨[],
   [Expr.call (Expr.selector (Expr.ident "app") "Get")
     (ExprList.ofList [Expr.basicLit LitKind.STRING "\"/x\"", Expr.ident "h"]),
    Expr.call (Expr.selector (Expr.ident "app") "get")
     (ExprList.ofList [Expr.basicLit LitKind.STRING "\"/x\"", Expr.ident "h"])]⟩

/-- The six HTTP verbs in mixed letter case, one call each. -/
def fileFiberMixedVerbs : File :=
  ⟨[],
   [Expr.call (Expr.selector (Expr.ident "app") "gEt")
     (ExprList.ofList [Expr.basicLit LitKind.STRING "\"/x\"", Expr.ident "h"]),
    Expr.call (Expr.selector (Expr.ident "app") "PoSt")
     (ExprList.ofList [Expr.basicLit LitKind.STRING "\"/x\"", Expr.ident "h"]),
    Expr.call (Expr.selector (Expr.ident "app") "pUt")
     (ExprList.ofList [Expr.basicLit LitKind.STRING "\"/x\"", Expr.ident "h"]),
    Expr.call (Expr.selector (Expr.ident "app") "DeLeTe")
     (ExprList.ofList [Expr.basicLit LitKind.STRING "\"/x\"", Expr.ident "h"]),
    Expr.call (Expr.selector (Expr.ident "app") "pAtCh")
     (ExprList.ofList [Expr.basicLit LitKind.STRING "\"/x\"", Expr.ident "h"]),
    Expr.call (Expr.selector (Expr.ident "app") "OpTiOnS")
     (ExprList.ofList [Expr.basicLit LitKind.STRING "\"/x\"", Expr.ident "h"])]⟩

/-- A single exact upper-case r.GET call on /x with h. -/
def fileGinUpper : File :=
  ⟨[],
   [Expr.call (Expr.selector (Expr.ident "r") "GET")
     (ExprList.ofList [Expr.basicLit LitKind.STRING "\"/x\"", Expr.ident "h"])]⟩

/-- A registration whose pattern is the raw string literal `/x`
(BasicLit.Value keeps the backquote delimiters). -/
def fileRawPattern : File :=
  ⟨[],
   [Expr.call (Expr.selector (Expr.ident "r") "GET")
     (ExprList.ofList [Expr.basicLit LitKind.STRING "`/x`", Expr.ident "h"])]⟩

/-- C1: claimed first-match-wins detection fails on the code.  On a
file importing the Gin signature and later the Echo signature the
code detects Echo, not Gin: the callback returning false in
ast.Inspect only prunes the matched ImportSpec's children, so
traversal continues and the later concrete match overwrites the
earlier one (last concrete import wins, contradicting the source's
own comment, stop if a specific framework is found). -/
theorem C1_last_concrete_import_wins :
    detectFramework fileGinThenEcho = ("Echo", false) ∧
    (DetectFrameworkAndEndpoints (some fileGinThenEcho)).framework = "Echo" ∧
    (DetectFrameworkAndEndpoints (some fileGinThenEcho)).framework ≠ "Gin" :=
  ⟨by decide, by decide, by decide⟩

/-- C3 counterexample: the claim says a multi-part chain handler such
as a.b.h causes the candidate to be skipped; on the code the handler
argument a.b.h is a SelectorExpr, so an endpoint IS produced, with
the Go fmt struct rendering of the receiver in its handler text. -/
theorem C3_multipart_chain_not_skipped :
    parseGinEndpoints fileGinChainHandler ≠ [] ∧
    parseGinEndpoints fileGinChainHandler =
      [⟨"GET", "/x", "&\x7ba b\x7d.h"⟩] :=
  ⟨by decide, by decide⟩

/-- C3 amended: for a candidate with at least two arguments and a
string-literal pattern whose trimmed text is non-empty: a bare
identifier handler records the identifier's name; a two-part
receiver.member handler records receiver.member verbatim; an
anonymous function literal handler is skipped; but a multi-part chain
a.b.member is NOT skipped — it records Go fmt's rendering of the
inner receiver followed by .member. -/
theorem C3_handler_shape_rules (x : Expr) (sel v : String) (rest : ExprList)
    (hm : isGinHTTPMethod sel = true) (hp : trimQuotes v ≠ "") :
    (∀ n : String, n ≠ "" →
      ginCandidate (Expr.selector x sel)
        (ExprList.cons (Expr.basicLit LitKind.STRING v)
          (ExprList.cons (Expr.ident n) rest)) =
        some ⟨sel, trimQuotes v, n⟩)
    ∧ (∀ r m : String,
      ginCandidate (Expr.selector x sel)
        (ExprList.cons (Expr.basicLit LitKind.STRING v)
          (ExprList.cons (Expr.selector (Expr.ident r) m) rest)) =
        some ⟨sel, trimQuotes v, r ++ "." ++ m⟩)
    ∧ (∀ body : ExprList,
      ginCandidate (Expr.selector x sel)
        (ExprList.cons (Expr.basicLit LitKind.STRING v)
          (ExprList.cons (Expr.funcLit body) rest)) = none)
    ∧ (∀ a b m : String,
      ginCandidate (Expr.selector x sel)
        (ExprList.cons (Expr.basicLit LitKind.STRING v)
          (ExprList.cons (Expr.selector (Expr.selector (Expr.ident a) b) m)
            rest)) =
        some ⟨sel, trimQuotes v, "&\x7b" ++ a ++ " " ++ b ++ "\x7d" ++ "." ++ m⟩) := by
  refine ⟨?_, ?_, ?_, ?_⟩
  · intro n hn
    simp only [ginCandidate, if_pos hm]
    rw [if_pos]
    simp [hp, hn]
  · intro r m
    have hne : (r ++ "." ++ m) ≠ "" :=
      str_append_ne_empty_left _ _ (str_append_ne_empty_right _ _ (by decide))
    simp only [ginCandidate, if_pos hm, goFmtS]
    rw [if_pos]
    simp [hp, hne]
  · intro body
    simp only [ginCandidate, if_pos hm]
    simp
  · intro a b m
    have h1 : ("&\x7b" ++ a) ≠ "" := str_append_ne_empty_left _ _ (by decide)
    have h2 : ("&\x7b" ++ a ++ " ") ≠ "" := str_append_ne_empty_left _ _ h1
    have h3 : ("&\x7b" ++ a ++ " " ++ b) ≠ "" := str_append_ne_empty_left _ _ h2
    have h4 : ("&\x7b" ++ a ++ " " ++ b ++ "\x7d") ≠ "" :=
      str_append_ne_empty_left _ _ h3
    have h5 : ("&\x7b" ++ a ++ " " ++ b ++ "\x7d" ++ ".") ≠ "" :=
      str_append_ne_empty_left _ _ h4
    have h6 : ("&\x7b" ++ a ++ " " ++ b ++ "\x7d" ++ "." ++ m) ≠ "" :=
      str_append_ne_empty_left _ _ h5
    simp only [ginCandidate, if_pos hm, goFmtS, goFmtDeep]
    rw [if_pos]
    simp [hp, h6]

/-- Witness for C3 amended, at an r.GET call on /x with the
three-part chain a.b.h as handler. -/
theorem C3_handler_shape_rules_witness :
    ginCandidate (Expr.selector (Expr.ident "r") "GET")
      (ExprList.cons (Expr.basicLit LitKind.STRING "\"/x\"")
        (ExprList.cons
          (Expr.selector (Expr.selector (Expr.ident "a") "b") "h")
          ExprList.nil)) =
      some ⟨"GET", trimQuotes "\"/x\"",
        "&\x7b" ++ "a" ++ " " ++ "b" ++ "\x7d" ++ "." ++ "h"⟩ :=
  (C3_handler_shape_rules (Expr.ident "r") "GET" "\"/x\"" ExprList.nil
    (by decide) (by decide)).2.2.2 "a" "b" "h"

/-- C4 counterexample: the claim says a string-literal pattern with a
bare-identifier handler yields exactly one endpoint; the empty
string literal is a string literal, yet an r.GET call passing it with
a bare-identifier handler yields zero endpoints, because the trimmed
pattern is empty. -/
theorem C4_empty_literal_skipped :
    parseGinEndpoints fileGinEmptyPattern = [] ∧
    (DetectFrameworkAndEndpoints (some fileGinEmptyPattern)).endpoints = [] :=
  ⟨by decide, by decide⟩

/-- C4 amended: a string-literal pattern whose trimmed text is
non-empty together with a bare-identifier handler yields exactly one
endpoint; a string literal trimming to empty yields none; any
non-literal pattern shape yields none, silently. -/
theorem C4_literal_pattern_rules (x : Expr) (sel : String) (rest : ExprList)
    (hm : isGinHTTPMethod sel = true) :
    (∀ v n : String, trimQuotes v ≠ "" → n ≠ "" →
      ginCandidate (Expr.selector x sel)
        (ExprList.cons (Expr.basicLit LitKind.STRING v)
          (ExprList.cons (Expr.ident n) rest)) =
        some ⟨sel, trimQuotes v, n⟩)
    ∧ (∀ v n : String, trimQuotes v = "" →
      ginCandidate (Expr.selector x sel)
        (ExprList.cons (Expr.basicLit LitKind.STRING v)
          (ExprList.cons (Expr.ident n) rest)) = none)
    ∧ (∀ a0 a1 : Expr, isStringLit a0 = false →
      ginCandidate (Expr.selector x sel)
        (ExprList.cons a0 (ExprList.cons a1 rest)) = none) := by
  refine ⟨?_, ?_, ?_⟩
  · intro v n hp hn
    simp only [ginCandidate, if_pos hm]
    rw [if_pos]
    simp [hp, hn]
  · intro v n hv
    simp only [ginCandidate, if_pos hm]
    rw [hv]
    simp
  · intro a0 a1 hns
    exact ginCandidate_skip_nonlit hns

/-- Witness for C4 amended: an accepted literal call and a skipped
variable-pattern call. -/
theorem C4_literal_pattern_rules_witness :
    ginCandidate (Expr.selector (Expr.ident "r") "GET")
      (ExprList.cons (Expr.basicLit LitKind.STRING "\"/x\"")
        (ExprList.cons (Expr.ident "h") ExprList.nil)) =
      some ⟨"GET", trimQuotes "\"/x\"", "h"⟩ ∧
    ginCandidate (Expr.selector (Expr.ident "r") "GET")
      (ExprList.cons (Expr.ident "pat")
        (ExprList.cons (Expr.ident "h") ExprList.nil)) = none :=
  ⟨(C4_literal_pattern_rules (Expr.ident "r") "GET" ExprList.nil
      (by decide)).1 "\"/x\"" "h" (by decide) (by decide),
   (C4_literal_pattern_rules (Expr.ident "r") "GET" ExprList.nil
      (by decide)).2.2 (Expr.ident "pat") (Expr.ident "h") (by decide)⟩

/-- C6 counterexample: a file declaring an import of the bare path gin has
no recognized signature (the table key is the full module path
github.com/gin-gonic/gin), so the analysis fails instead of
detecting Gin. -/
theorem C6_import_gin_literal_fails :
    (DetectFrameworkAndEndpoints (some fileImportGinLiteral)).framework ≠ "Gin" ∧
    DetectFrameworkAndEndpoints (some fileImportGinLiteral) =
      ⟨"", [], some "no known framework detected"⟩ :=
  ⟨by decide, by decide⟩

/-- C6 amended: with the Gin signature path imported, the file
calling r.POST with the /login literal and the handleLogin identifier
yields framework Gin and the single endpoint POST /login
handleLogin. -/
theorem C6_gin_signature_scenario :
    DetectFrameworkAndEndpoints (some fileGinLogin) =
      ⟨"Gin", [⟨"POST", "/login", "handleLogin"⟩], none⟩ := by decide

/-- C7: the base-HTTP scenario: Handle maps to CUSTOM, HandleFunc to
ALL, endpoints in document order. -/
theorem C7_nethttp_scenario :
    DetectFrameworkAndEndpoints (some fileNetHttpMux) =
      ⟨"net/http",
       [⟨"CUSTOM", "/static/", "fileHandler"⟩,
        ⟨"ALL", "/health", "healthCheck"⟩], none⟩ := by decide

/-- C8: the Fiber adapter accepts the six verbs in any letter case
and records the upper-cased name; the Gin adapter accepts only the
exact upper-case spellings, so lower- or mixed-case calls produce
nothing under it. -/
theorem C8_adapter_case_sensitivity :
    parseFiberEndpoints fileFiberCasePair =
      [⟨"GET", "/x", "h"⟩, ⟨"GET", "/x", "h"⟩] ∧
    parseGinEndpoints fileFiberCasePair = [] ∧
    parseFiberEndpoints fileFiberMixedVerbs =
      [⟨"GET", "/x", "h"⟩, ⟨"POST", "/x", "h"⟩, ⟨"PUT", "/x", "h"⟩,
       ⟨"DELETE", "/x", "h"⟩, ⟨"PATCH", "/x", "h"⟩, ⟨"OPTIONS", "/x", "h"⟩] ∧
    parseGinEndpoints fileFiberMixedVerbs = [] ∧
    parseGinEndpoints fileGinUpper = [⟨"GET", "/x", "h"⟩] :=
  ⟨by decide, by decide, by decide, by decide, by decide⟩

/-- C9: the Echo adapter and the Gin adapter are extensionally equal:
the two source functions are textually identical up to the (equal)
method-name predicates, so they compute the same endpoint list on
every syntax tree. -/
theorem C9_echo_equals_gin (f : File) :
    parseEchoEndpoints f = parseGinEndpoints f := rfl

/-- C10: in every adapter an accepted candidate's recorded pattern is
exactly strings.Trim of the literal's source text with the cutset
consisting of the double-quote character: the original text is the
trimmed text surrounded by some number of double quotes on each side
and the trimmed text itself starts and ends with a non-quote
character; consequently a raw backquote-delimited literal is accepted
and keeps its backquotes in the recorded pattern. -/
theorem C10_pattern_is_trimmed_literal :
    (∀ (x : Expr) (sel v : String) (a1 : Expr) (rest : ExprList) (e : Endpoint),
      ginCandidate (Expr.selector x sel)
        (ExprList.cons (Expr.basicLit LitKind.STRING v)
          (ExprList.cons a1 rest)) = some e →
      e.Pattern = trimQuotes v)
    ∧ (∀ (x : Expr) (sel v : String) (a1 : Expr) (rest : ExprList) (e : Endpoint),
      echoCandidate (Expr.selector x sel)
        (ExprList.cons (Expr.basicLit LitKind.STRING v)
          (ExprList.cons a1 rest)) = some e →
      e.Pattern = trimQuotes v)
    ∧ (∀ (x : Expr) (sel v : String) (a1 : Expr) (rest : ExprList) (e : Endpoint),
      gorillaMuxCandidate (Expr.selector x sel)
        (ExprList.cons (Expr.basicLit LitKind.STRING v)
          (ExprList.cons a1 rest)) = some e →
      e.Pattern = trimQuotes v)
    ∧ (∀ (x : Expr) (sel v : String) (a1 : Expr) (rest : ExprList) (e : Endpoint),
      netHttpCandidate (Expr.selector x sel)
        (ExprList.cons (Expr.basicLit LitKind.STRING v)
          (ExprList.cons a1 rest)) = some e →
      e.Pattern = trimQuotes v)
    ∧ (∀ (x : Expr) (sel v : String) (a1 : Expr) (rest : ExprList) (e : Endpoint),
      fiberCandidate (Expr.selector x sel)
        (ExprList.cons (Expr.basicLit LitKind.STRING v)
          (ExprList.cons a1 rest)) = some e →
      e.Pattern = trimQuotes v)
    ∧ (∀ s : String, ∃ a b : Nat,
      s.data = List.replicate a '"' ++ (trimQuotes s).data ++ List.replicate b '"')
    ∧ (∀ (s : String) (c : Char), (trimQuotes s).data.head? = some c → c ≠ '"')
    ∧ (∀ (s : String) (c : Char), (trimQuotes s).data.getLast? = some c → c ≠ '"')
    ∧ parseGinEndpoints fileRawPattern = [⟨"GET", "`/x`", "h"⟩] := by
  refine ⟨?_, ?_, ?_, ?_, ?_, ?_, ?_, ?_, by decide⟩
  · intro x sel v a1 rest e h
    exact ginCandidate_pattern_eq h
  · intro x sel v a1 rest e h
    exact echoCandidate_pattern_eq h
  · intro x sel v a1 rest e h
    exact gorillaMuxCandidate_pattern_eq h
  · intro x sel v a1 rest e h
    exact netHttpCandidate_pattern_eq h
  · intro x sel v a1 rest e h
    exact fiberCandidate_pattern_eq h
  · intro s
    exact trimListQuotes_decomp s.data
  · intro s c h
    exact trimListQuotes_head_ne h
  · intro s c h
    exact trimListQuotes_getLast_ne h

/-- Witness for C10 at the raw backquote literal. -/
theorem C10_pattern_is_trimmed_literal_witness :
    (⟨"GET", "`/x`", "h"⟩ : Endpoint).Pattern = trimQuotes "`/x`" :=
  C10_pattern_is_trimmed_literal.1 (Expr.ident "r") "GET" "`/x`"
    (Expr.ident "h") ExprList.nil ⟨"GET", "`/x`", "h"⟩ (by decide)
